import Mathlib

/-!
Shallow embedding of the archlinux-inputs-fsck scanner.

Rust strings are modelled as lists of characters (`Str`), machine-size
counters as `Nat`, and fallible Rust code as `Except`.  A Rust panic
(out-of-bounds slice index) is modelled as an explicit `Except.error`.
The embedding follows `src/git.rs`, `src/hg.rs`, `src/svn.rs`,
`src/bzr.rs`, `src/makepkg.rs`, `src/osv.rs`, `src/fsck.rs` and the
scheduler loop of `Scan::run` in `src/args.rs`.
-/

namespace Fsck

/-- Rust `String` / `&str`, modelled as a list of unicode scalar values. -/
abbrev Str := List Char

/-- Rust `str::split_once`: split at the leftmost occurrence of `sep`,
returning the parts before and after it. -/
def splitOnce (sep : Str) : Str → Option (Str × Str)
  | [] => if sep.isPrefixOf ([] : Str) then some ([], []) else none
  | c :: rest =>
    if sep.isPrefixOf (c :: rest) then some ([], (c :: rest).drop sep.length)
    else
      match splitOnce sep rest with
      | some (a, b) => some (c :: a, b)
      | none => none

/-- Rust `str::rsplit_once`: split at the rightmost occurrence of `sep`. -/
def rsplitOnce (sep s : Str) : Option (Str × Str) :=
  match splitOnce sep.reverse s.reverse with
  | some (a, b) => some (b.reverse, a.reverse)
  | none => none

/-- Rust `str::strip_suffix`. -/
def stripSuffix (suffix s : Str) : Option Str :=
  if suffix.isSuffixOf s then some (s.take (s.length - suffix.length)) else none

/-! ### src/git.rs -/

/-- Rust `GitSource` from src/git.rs. -/
structure GitSource where
  url : Str
  commit : Option Str
  tag : Option Str
  signed : Bool
deriving DecidableEq

/-- Rust `is_git_object_hash` from src/git.rs: 40 characters, each in
the ranges `'0'..='9'` or `'a'..='f'`. -/
def isGitObjectHash (name : Str) : Bool :=
  name.length == 40 && name.all fun c => ('0' ≤ c && c ≤ '9') || ('a' ≤ c && c ≤ 'f')

/-- Rust `GitSource::is_commit_securely_pinned` from src/git.rs: the commit
field is consulted first; the tag field only if no commit is present. -/
def GitSource.is_commit_securely_pinned (s : GitSource) : Bool :=
  match s.commit with
  | some commit => isGitObjectHash commit
  | none =>
    match s.tag with
    | some tag => isGitObjectHash tag
    | none => false

/-- Rust `impl FromStr for GitSource` from src/git.rs (infallible). -/
def GitSource.fromStr (s0 : Str) : GitSource :=
  let p1 : Bool × Str :=
    match stripSuffix "?signed".toList s0 with
    | some remaining => (true, remaining)
    | none => (false, s0)
  let p2 : Option Str × Str :=
    match rsplitOnce "#commit=".toList p1.2 with
    | some (remaining, value) => (some value, remaining)
    | none => (none, p1.2)
  let p3 : Option Str × Str :=
    match rsplitOnce "#tag=".toList p2.2 with
    | some (remaining, value) => (some value, remaining)
    | none => (none, p2.2)
  let p4 : Bool × Str :=
    match stripSuffix "?signed".toList p3.2 with
    | some remaining => (true, remaining)
    | none => (false, p3.2)
  { url := p4.2, commit := p2.1, tag := p3.1, signed := p1.1 || p4.1 }

/-! ### src/hg.rs -/

/-- Rust `HgSource` from src/hg.rs. -/
structure HgSource where
  url : Str
  revision : Option Str
deriving DecidableEq

/-- Rust `is_hg_object_hash` from src/hg.rs (same body as the git one). -/
def isHgObjectHash (name : Str) : Bool :=
  name.length == 40 && name.all fun c => ('0' ≤ c && c ≤ '9') || ('a' ≤ c && c ≤ 'f')

/-- Rust `HgSource::is_revision_securely_pinned` from src/hg.rs. -/
def HgSource.is_revision_securely_pinned (s : HgSource) : Bool :=
  match s.revision with
  | some revision => isHgObjectHash revision
  | none => false

/-- Rust `impl FromStr for HgSource` from src/hg.rs (infallible). -/
def HgSource.fromStr (s0 : Str) : HgSource :=
  match rsplitOnce "#revision=".toList s0 with
  | some (remaining, value) => { url := remaining, revision := some value }
  | none => { url := s0, revision := none }

/-! ### src/svn.rs and src/bzr.rs -/

/-- Rust `SvnSource` from src/svn.rs. -/
structure SvnSource where
  url : Str
  revision : Option Str
deriving DecidableEq

/-- Rust `impl FromStr for SvnSource` from src/svn.rs (infallible). -/
def SvnSource.fromStr (s0 : Str) : SvnSource :=
  match rsplitOnce "#revision=".toList s0 with
  | some (remaining, value) => { url := remaining, revision := some value }
  | none => { url := s0, revision := none }

/-- Rust `BzrSource` from src/bzr.rs. -/
structure BzrSource where
  url : Str
  revision : Option Str
deriving DecidableEq

/-- Rust `impl FromStr for BzrSource` from src/bzr.rs (infallible). -/
def BzrSource.fromStr (s0 : Str) : BzrSource :=
  match rsplitOnce "#revision=".toList s0 with
  | some (remaining, value) => { url := remaining, revision := some value }
  | none => { url := s0, revision := none }

/-! ### src/makepkg.rs -/

/-- Rust `SUPPORTED_ALGS` from src/makepkg.rs, in declaration order. -/
def SUPPORTED_ALGS : List Str :=
  ["sha256sums".toList, "sha512sums".toList, "sha224sums".toList,
   "sha384sums".toList, "b2sums".toList, "md5sums".toList, "sha1sums".toList]

/-- Rust `Source` from src/makepkg.rs; `UrlWithFilename` carries `(url, filename)`. -/
inductive Source where
  | Url (url : Str)
  | UrlWithFilename (url : Str) (filename : Str)
deriving DecidableEq

/-- Rust `Source::url` from src/makepkg.rs. -/
def Source.url : Source → Str
  | .Url url => url
  | .UrlWithFilename url _ => url

/-- Rust `Source::filename` from src/makepkg.rs. -/
def Source.filename : Source → Option Str
  | .Url _ => none
  | .UrlWithFilename _ filename => some filename

/-- Rust `Source::scheme` from src/makepkg.rs: the part before the first `://`. -/
def Source.scheme (s : Source) : Option Str :=
  (splitOnce "://".toList s.url).map Prod.fst

/-- One line of `list_sources` from src/makepkg.rs: an optional
`filename::url` split at the first `::`. -/
def parseSourceLine (line : Str) : Source :=
  match splitOnce "::".toList line with
  | some (file, url) => Source.UrlWithFilename url file
  | none => Source.Url line

/-! ### src/osv.rs (data carried by the SecurityAdvisory finding) -/

/-- Rust `Package` from src/osv.rs. -/
structure OsvPackage where
  name : Str
  version : Option Str
  ecosystem : Str
deriving DecidableEq

/-- Rust `Vulnerability` from src/osv.rs. -/
structure OsvVulnerability where
  id : Str
  aliases : Option (List Str)
  summary : Option Str
  details : Option Str
deriving DecidableEq

/-- Rust `Group` from src/osv.rs. -/
structure OsvGroup where
  ids : List Str
deriving DecidableEq

/-- Rust `Packages` from src/osv.rs. -/
structure OsvPackages where
  package : OsvPackage
  vulnerabilities : List OsvVulnerability
  groups : Option (List OsvGroup)
deriving DecidableEq

/-! ### src/fsck.rs -/

/-- Rust `Checksum` from src/fsck.rs. -/
inductive Checksum where
  | Md5 (value : Str)
  | Sha1 (value : Str)
  | Sha256 (value : Str)
  | Sha512 (value : Str)
  | Sha224 (value : Str)
  | Sha384 (value : Str)
  | B2 (value : Str)
deriving DecidableEq

/-- Failure modes of the pure part of `check_pkg`: the `bail!` of
`Checksum::new`, and the Rust panic of the out-of-bounds `sources[i]`
index in the checksum-attachment loop. -/
inductive CheckError where
  | unknownChecksumAlgorithm (alg : Str)
  | indexOutOfBounds (index len : Nat)
deriving DecidableEq

/-- Rust `Checksum::new` from src/fsck.rs, with the match arms in source order. -/
def Checksum.new (alg : Str) (value : Str) : Except CheckError Checksum :=
  if alg = "md5sums".toList then Except.ok (Checksum.Md5 value)
  else if alg = "sha1sums".toList then Except.ok (Checksum.Sha1 value)
  else if alg = "sha256sums".toList then Except.ok (Checksum.Sha256 value)
  else if alg = "sha512sums".toList then Except.ok (Checksum.Sha512 value)
  else if alg = "sha224sums".toList then Except.ok (Checksum.Sha224 value)
  else if alg = "sha384sums".toList then Except.ok (Checksum.Sha384 value)
  else if alg = "b2sums".toList then Except.ok (Checksum.B2 value)
  else Except.error (CheckError.unknownChecksumAlgorithm alg)

/-- Rust `Checksum::is_checksum_securely_pinned` from src/fsck.rs. -/
def Checksum.is_checksum_securely_pinned : Checksum → Bool
  | .Md5 _ => false
  | .Sha1 _ => false
  | .Sha256 _ => true
  | .Sha512 _ => true
  | .Sha224 _ => true
  | .Sha384 _ => true
  | .B2 _ => true

/-- Rust `UrlSource` from src/fsck.rs. -/
structure UrlSource where
  url : Str
  filename : Option Str
  checksums : List Checksum
deriving DecidableEq

/-- Rust `UrlSource::is_signature_file` from src/fsck.rs: the explicit
filename, or else the whole url, is tested against the three
detached-signature extensions. -/
def UrlSource.is_signature_file (s : UrlSource) : Bool :=
  let filename := s.filename.getD s.url
  [".sig".toList, ".asc".toList, ".sign".toList].any
    fun ext => ext.isSuffixOf filename

/-- Rust `AuthedSource` from src/fsck.rs. -/
inductive AuthedSource where
  | File (name : Str)
  | Url (source : UrlSource)
  | Git (source : GitSource)
  | Svn (source : SvnSource)
  | Hg (source : HgSource)
  | Bzr (source : BzrSource)
deriving DecidableEq

/-- Rust `AuthedSource::url` from src/fsck.rs: wrap a raw source as a Url
source with no checksums attached yet. -/
def AuthedSource.url (s : Source) : AuthedSource :=
  AuthedSource.Url { url := s.url, filename := s.filename, checksums := [] }

/-- Rust `Finding` from src/fsck.rs. -/
inductive Finding where
  | InsecureScheme (scheme : Str) (source : Source)
  | UnknownScheme (scheme : Str) (source : Source)
  | WrongNumberOfChecksums (sources : Nat) (alg : Str) (sums : Nat)
  | GitCommitInsecurePin (source : GitSource)
  | SvnInsecurePin (source : SvnSource)
  | HgRevisionInsecurePin (source : HgSource)
  | BzrInsecurePin (source : BzrSource)
  | UrlArtifactInsecurePin (source : UrlSource)
  | SecurityAdvisory (source : Str) (packages : OsvPackages)
deriving DecidableEq

/-- The per-source classification step of `check_pkg` (the big match on
`source.scheme()` in src/fsck.rs): scheme-advisory findings plus the
typed source. -/
def classifySource (source : Source) : List Finding × AuthedSource :=
  match source.scheme with
  | none => ([], AuthedSource.File source.url)
  | some scheme =>
    if scheme = "https".toList then ([], AuthedSource.url source)
    else if scheme = "http".toList then ([], AuthedSource.url source)
    else if scheme = "ftp".toList then ([], AuthedSource.url source)
    else if "git".toList.isPrefixOf scheme then
      ((if scheme = "git".toList ∨ scheme = "git+http".toList ∨ scheme = "git+git".toList then
          [Finding.InsecureScheme scheme source]
        else if ¬scheme = "git+https".toList then
          [Finding.UnknownScheme scheme source]
        else []),
       AuthedSource.Git (GitSource.fromStr source.url))
    else if "svn".toList.isPrefixOf scheme then
      ((if scheme = "svn".toList ∨ scheme = "svn+http".toList then
          [Finding.InsecureScheme scheme source]
        else if ¬scheme = "svn+https".toList then
          [Finding.UnknownScheme scheme source]
        else []),
       AuthedSource.Svn (SvnSource.fromStr source.url))
    else if "hg".toList.isPrefixOf scheme then
      ((if scheme = "hg+http".toList then
          [Finding.InsecureScheme scheme source]
        else if ¬scheme = "hg+https".toList then
          [Finding.UnknownScheme scheme source]
        else []),
       AuthedSource.Hg (HgSource.fromStr source.url))
    else if "bzr".toList.isPrefixOf scheme then
      ((if scheme = "bzr+http".toList then
          [Finding.InsecureScheme scheme source]
        else if ¬scheme = "bzr+https".toList then
          [Finding.UnknownScheme scheme source]
        else []),
       AuthedSource.Bzr (BzrSource.fromStr source.url))
    else ([Finding.UnknownScheme scheme source], AuthedSource.url source)

/-- Classification of the whole source list, collecting the
scheme-advisory findings in source order. -/
def classifySources (sources : List Source) : List Finding × List AuthedSource :=
  (((sources.map classifySource).map Prod.fst).flatten,
   (sources.map classifySource).map Prod.snd)

/-- One `sources[i]` update of the checksum-attachment loop: only a Url
variant at index `i` stores the checksum, other variants ignore it.
Callers establish `i` in bounds; out of bounds the list is unchanged. -/
def attachAt : List AuthedSource → Nat → Checksum → List AuthedSource
  | [], _, _ => []
  | s :: rest, 0, cm =>
    (match s with
     | AuthedSource.Url u => AuthedSource.Url { u with checksums := u.checksums ++ [cm] }
     | other => other) :: rest
  | s :: rest, i + 1, cm => s :: attachAt rest i cm

/-- The inner `for (i, sum) in sums.into_iter().enumerate()` loop of
`check_pkg`: `SKIP` entries are skipped, `Checksum::new` errors
propagate, and indexing `sources[i]` out of bounds is the Rust panic. -/
def attachSums (alg : Str) : List Str → Nat → List AuthedSource →
    Except CheckError (List AuthedSource)
  | [], _, srcs => Except.ok srcs
  | sum :: rest, i, srcs =>
    if sum = "SKIP".toList then attachSums alg rest (i + 1) srcs
    else
      match Checksum.new alg sum with
      | Except.error e => Except.error e
      | Except.ok cm =>
        if i < srcs.length then attachSums alg rest (i + 1) (attachAt srcs i cm)
        else Except.error (CheckError.indexOutOfBounds i srcs.length)

/-- The `for alg in makepkg::SUPPORTED_ALGS` loop of `check_pkg`:
per algorithm, look up the declared sums, emit a count-mismatch
finding when the lengths differ, then attach sums by index. -/
def checksumPassAux (getVar : Str → List Str) :
    List Str → List Finding → List AuthedSource →
    Except CheckError (List Finding × List AuthedSource)
  | [], findings, srcs => Except.ok (findings, srcs)
  | alg :: algs, findings, srcs =>
    if getVar alg = [] then checksumPassAux getVar algs findings srcs
    else
      match attachSums alg (getVar alg) 0 srcs with
      | Except.error e => Except.error e
      | Except.ok srcsNext =>
        checksumPassAux getVar algs
          (findings ++
            (if ¬srcs.length = (getVar alg).length then
              [Finding.WrongNumberOfChecksums srcs.length alg (getVar alg).length]
            else []))
          srcsNext

/-- The whole checksum pass over `SUPPORTED_ALGS`. -/
def checksumPass (getVar : Str → List Str) (srcs : List AuthedSource) :
    Except CheckError (List Finding × List AuthedSource) :=
  checksumPassAux getVar SUPPORTED_ALGS [] srcs

/-- Rust `has_any_secure_git_sources` from `check_pkg` in src/fsck.rs. -/
def has_any_secure_git_sources (srcs : List AuthedSource) : Bool :=
  srcs.any fun source =>
    match source with
    | AuthedSource.Git source => source.is_commit_securely_pinned
    | _ => false

/-- The per-source body of the final `for source in sources` audit loop
of `check_pkg` (with discover_sigs off, the only pure-path behaviour). -/
def auditSource (hasAnySecureGit : Bool) : AuthedSource → List Finding
  | AuthedSource.File _ => []
  | AuthedSource.Url source =>
    if source.is_signature_file then []
    else if source.checksums.any Checksum.is_checksum_securely_pinned then []
    else [Finding.UrlArtifactInsecurePin source]
  | AuthedSource.Git source =>
    if ¬hasAnySecureGit && ¬source.is_commit_securely_pinned then
      [Finding.GitCommitInsecurePin source]
    else []
  | AuthedSource.Svn source => [Finding.SvnInsecurePin source]
  | AuthedSource.Hg source => [Finding.HgRevisionInsecurePin source]
  | AuthedSource.Bzr source => [Finding.BzrInsecurePin source]

/-- The pure core of `check_pkg` from src/fsck.rs, taking the already
extracted source list and the variable-extraction results (`getVar alg`
is what `makepkg::list_variable` returns for `alg`): classification,
checksum cross-validation and attachment, then the pin-security audit. -/
def check_pkg (sources : List Source) (getVar : Str → List Str) :
    Except CheckError (List Finding) :=
  match checksumPass getVar (classifySources sources).2 with
  | Except.error e => Except.error e
  | Except.ok (sumFindings, authed) =>
    Except.ok ((classifySources sources).1 ++ sumFindings ++
      (authed.map (auditSource (has_any_secure_git_sources authed))).flatten)

/-- The classified source list as it enters the audit loop of
`check_pkg` (after checksum attachment). -/
def authedSources (sources : List Source) (getVar : Str → List Str) :
    Except CheckError (List AuthedSource) :=
  match checksumPass getVar (classifySources sources).2 with
  | Except.error e => Except.error e
  | Except.ok (_, authed) => Except.ok authed

/-! ### src/args.rs — the Scan::run scheduler loop -/

/-- Rust `Target` from src/fsck.rs. -/
inductive Target where
  | ArchBuildSystem (pkg : Str)
  | BuildPath (path : Str)
deriving DecidableEq

/-- The per-target failure modes of a scan task (`check_pkg` and its
collaborators): missing recipe, subprocess or I/O failure, and the
checksum errors of the pure core. -/
inductive ScanError where
  | missingPkgbuild (path : Str)
  | subprocess (msg : Str)
  | ioError (msg : Str)
  | checkError (e : CheckError)
deriving DecidableEq

/-- Rust `check.concurrency.unwrap_or_else(|| num_cpus::get() * 2)` from
`Scan::run` in src/args.rs. -/
def effectiveConcurrency (configured : Option Nat) (numCpus : Nat) : Nat :=
  configured.getD (numCpus * 2)

/-- The inner `while pool.len() < concurrency` top-up loop of
`Scan::run`: pop targets off the queue front and spawn them (append to
the pool) until the pool reaches the limit or the queue is empty.
Returns the remaining queue and the filled pool. -/
def fill (limit : Nat) : List Target → List Target → List Target × List Target
  | [], pool => ([], pool)
  | t :: queue, pool =>
    if pool.length < limit then fill limit queue (pool ++ [t])
    else (t :: queue, pool)

/-- One scheduler result entry: the target together with its reported
scan outcome (`Ok(findings)` audited and possibly printed, `Err` logged). -/
abbrev ScanLog := List (Target × Except ScanError (List Finding))

/-- The `loop` of `Scan::run` in src/args.rs.  `scanResult t` is the
value the spawned task for `t` produces; `joinFails t` models
`join_next` returning a `JoinError` for that task (e.g. the task
panicked), which `Scan::run` escalates via `?`; `oracle` chooses which
of the in-flight tasks finishes next (completion order is up to the
async runtime).  The returned `ScanLog` records, in completion order,
every result routed to the aggregator; the returned list of numbers
records the pool size at the start of each await (the number of
simultaneously running tasks). -/
def runAux (scanResult : Target → Except ScanError (List Finding))
    (joinFails : Target → Bool) (oracle : Nat → Nat) (limit : Nat) :
    Nat → List Target → List Target → ScanLog → List Nat →
    Except Str (ScanLog × List Nat)
  | step, queue, pool, acc, peaks =>
    match hqp : fill limit queue pool with
    | (queueNext, poolFilled) =>
      if hp : poolFilled = [] then Except.ok (acc, peaks)
      else
        if joinFails (poolFilled.get ⟨oracle step % poolFilled.length,
            Nat.mod_lt _ (List.length_pos.mpr hp)⟩) then
          Except.error "Failed to join task".toList
        else
          runAux scanResult joinFails oracle limit (step + 1) queueNext
            (poolFilled.eraseIdx (oracle step % poolFilled.length))
            (acc ++ [(poolFilled.get ⟨oracle step % poolFilled.length,
                Nat.mod_lt _ (List.length_pos.mpr hp)⟩,
              scanResult (poolFilled.get ⟨oracle step % poolFilled.length,
                Nat.mod_lt _ (List.length_pos.mpr hp)⟩))])
            (peaks ++ [poolFilled.length])
termination_by step queue pool acc peaks => queue.length + pool.length
decreasing_by
  have hsum : ∀ (q p : List Target),
      (fill limit q p).1.length + (fill limit q p).2.length = q.length + p.length := by
    intro q
    induction q with
    | nil => intro p; simp [fill]
    | cons t q ih =>
      intro p
      simp only [fill]
      split
      · rw [ih]
        simp
        omega
      · simp
  have h := hsum queue pool
  rw [hqp] at h
  simp at h
  have hlt : oracle step % poolFilled.length < poolFilled.length :=
    Nat.mod_lt _ (List.length_pos.mpr hp)
  rw [List.length_eraseIdx, if_pos hlt]
  omega

/-- Rust `Scan::run` from src/args.rs, starting from an empty pool. -/
def run (scanResult : Target → Except ScanError (List Finding))
    (joinFails : Target → Bool) (oracle : Nat → Nat) (limit : Nat)
    (targets : List Target) : Except Str (ScanLog × List Nat) :=
  runAux scanResult joinFails oracle limit 0 targets [] [] []

/-! ## Helper lemmas -/

/-- The hex-range test of `is_git_object_hash`, characterised by
membership in the sixteen lowercase hex digits. -/
theorem hexChar_mem (c : Char) :
    ((('0' ≤ c && c ≤ '9') || ('a' ≤ c && c ≤ 'f')) = true) ↔
      c ∈ "0123456789abcdef".toList := by
  constructor
  · intro h
    simp only [Bool.or_eq_true, Bool.and_eq_true, decide_eq_true_eq] at h
    have hx : (48 ≤ c.toNat ∧ c.toNat ≤ 57) ∨ (97 ≤ c.toNat ∧ c.toNat ≤ 102) := by
      rcases h with ⟨h1, h2⟩ | ⟨h1, h2⟩ <;>
        [left; right] <;>
        exact ⟨UInt32.le_def.mp (Char.le_def.mp h1), UInt32.le_def.mp (Char.le_def.mp h2)⟩
    have hc : ∀ m : Nat, c.toNat = m → c = Char.ofNat m := by
      intro m hm
      rw [← hm, Char.ofNat_toNat]
    set m := c.toNat with hm
    have hcc : c = Char.ofNat m := hc m rfl
    rcases hx with ⟨h1, h2⟩ | ⟨h1, h2⟩ <;> interval_cases m <;> subst hcc <;> decide
  · intro h
    simp only [String.toList] at h
    fin_cases h <;> decide

/-! ## Claims -/

/-- C6: the hash-pin check (shared by git commit/tag pins and hg
revision pins) returns true iff the string has exactly 40 characters,
each one of the sixteen lowercase hex digits; any other length or any
character outside that set (uppercase included) yields false. -/
theorem c6_hash_pin_check (s : Str) :
    (isGitObjectHash s = true ↔
      (s.length = 40 ∧ ∀ c ∈ s, c ∈ "0123456789abcdef".toList)) ∧
    isHgObjectHash s = isGitObjectHash s := by
  refine ⟨?_, rfl⟩
  unfold isGitObjectHash
  simp only [Bool.and_eq_true, beq_iff_eq, List.all_eq_true]
  constructor
  · rintro ⟨h1, h2⟩
    exact ⟨h1, fun c hc => (hexChar_mem c).mp (h2 c hc)⟩
  · rintro ⟨h1, h2⟩
    exact ⟨h1, fun c hc => (hexChar_mem c).mpr (h2 c hc)⟩

/-- C1 counterexample: a git source whose commit field is set but not a
40-hex string while its tag field is a 40-hex string.  The claim's
disjunction holds at this source (the tag qualifies), yet
`is_commit_securely_pinned` is false: the commit field shadows the tag. -/
theorem c1_counterexample :
    (GitSource.is_commit_securely_pinned
      { url := [], commit := some ['v', '1'], tag := some (List.replicate 40 'a'),
        signed := false } = false) ∧
    (∃ t, ({ url := [], commit := some ['v', '1'],
             tag := some (List.replicate 40 'a'),
             signed := false } : GitSource).tag = some t ∧ isGitObjectHash t = true) := by
  refine ⟨by decide, List.replicate 40 'a', rfl, by decide⟩

/-- C1 (amended): a git source is securely pinned iff its commit field
is set and a 40-character lowercase hex string, or its commit field is
absent and its tag field is set and such a hex string.  (The commit
field takes precedence: a non-hex commit is never rescued by a valid
tag.) -/
theorem c1_git_securely_pinned_iff (g : GitSource) :
    g.is_commit_securely_pinned = true ↔
      ((∃ c, g.commit = some c ∧ isGitObjectHash c = true) ∨
       (g.commit = none ∧ ∃ t, g.tag = some t ∧ isGitObjectHash t = true)) := by
  rcases g with ⟨url, commit, tag, signed⟩
  cases commit <;> cases tag <;>
    simp [GitSource.is_commit_securely_pinned]

/-- C6 witness: a 40-character lowercase hex string passes the check,
and the hg check agrees with the git check on it. -/
theorem c6_hash_pin_check_witness :
    isGitObjectHash (List.replicate 40 'a') = true ∧
    isHgObjectHash (List.replicate 40 'a') = isGitObjectHash (List.replicate 40 'a') :=
  ⟨(c6_hash_pin_check (List.replicate 40 'a')).1.mpr ⟨by decide, by decide⟩,
   (c6_hash_pin_check (List.replicate 40 'a')).2⟩

/-- C1 witness: a source with no commit and a 40-hex tag is pinned. -/
theorem c1_git_securely_pinned_iff_witness :
    GitSource.is_commit_securely_pinned
      { url := [], commit := none, tag := some (List.replicate 40 'a'),
        signed := false } = true :=
  (c1_git_securely_pinned_iff
    { url := [], commit := none, tag := some (List.replicate 40 'a'),
      signed := false }).mpr
    (Or.inr ⟨rfl, List.replicate 40 'a', rfl, by decide⟩)

/-- C5: `Checksum::new` succeeds exactly for the seven supported
algorithm names and fails with an unknown-algorithm error otherwise;
a constructed checksum is securely pinned iff the algorithm is one of
sha256, sha512, sha224, sha384, b2 (and not md5 or sha1). -/
theorem c5_checksum_algorithms (alg value : Str) :
    ((∃ c, Checksum.new alg value = Except.ok c) ↔ alg ∈ SUPPORTED_ALGS) ∧
    (alg ∉ SUPPORTED_ALGS →
      Checksum.new alg value = Except.error (CheckError.unknownChecksumAlgorithm alg)) ∧
    (∀ c, Checksum.new alg value = Except.ok c →
      (c.is_checksum_securely_pinned = true ↔
        alg ∈ ["sha256sums".toList, "sha512sums".toList, "sha224sums".toList,
               "sha384sums".toList, "b2sums".toList])) := by
  unfold Checksum.new
  split_ifs with h1 h2 h3 h4 h5 h6 h7 <;>
    simp_all [SUPPORTED_ALGS, Checksum.is_checksum_securely_pinned]

/-- C5 witness: an unsupported name fails, a supported one succeeds. -/
theorem c5_checksum_algorithms_witness :
    Checksum.new "foosums".toList "v".toList =
      Except.error (CheckError.unknownChecksumAlgorithm "foosums".toList) ∧
    ∃ c, Checksum.new "sha256sums".toList "v".toList = Except.ok c :=
  ⟨(c5_checksum_algorithms "foosums".toList "v".toList).2.1 (by decide),
   (c5_checksum_algorithms "sha256sums".toList "v".toList).1.mpr (by decide)⟩

/-- C7: a raw source whose scheme starts with `git` is always
classified as the Git variant obtained by parsing its URL; the schemes
`git`, `git+http` and `git+git` produce exactly one InsecureScheme
finding, every other such scheme except exactly `git+https` produces
exactly one UnknownScheme finding, and `git+https` produces none. -/
theorem c7_git_scheme_classification (source : Source) (scheme : Str)
    (h1 : source.scheme = some scheme)
    (h2 : "git".toList.isPrefixOf scheme = true) :
    (classifySource source).2 = AuthedSource.Git (GitSource.fromStr source.url) ∧
    (scheme = "git".toList ∨ scheme = "git+http".toList ∨ scheme = "git+git".toList →
      (classifySource source).1 = [Finding.InsecureScheme scheme source]) ∧
    (¬(scheme = "git".toList ∨ scheme = "git+http".toList ∨ scheme = "git+git".toList) →
      ¬scheme = "git+https".toList →
      (classifySource source).1 = [Finding.UnknownScheme scheme source]) ∧
    (scheme = "git+https".toList → (classifySource source).1 = []) := by
  have hne1 : ¬scheme = "https".toList := by rintro rfl; revert h2; decide
  have hne2 : ¬scheme = "http".toList := by rintro rfl; revert h2; decide
  have hne3 : ¬scheme = "ftp".toList := by rintro rfl; revert h2; decide
  unfold classifySource
  rw [h1]
  simp only [hne1, if_false, hne2, hne3, h2, if_true]
  refine ⟨trivial, ?_, ?_, ?_⟩
  · intro h
    rw [if_pos h]
  · intro hno hns
    rw [if_neg hno, if_pos hns]
  · rintro rfl
    rw [if_neg (by decide), if_neg (by decide)]

/-- C7 witness: the scheme `git` yields one InsecureScheme finding and
a Git classification. -/
theorem c7_git_scheme_classification_witness :
    (classifySource (Source.Url "git://host/repo".toList)).1 =
      [Finding.InsecureScheme "git".toList (Source.Url "git://host/repo".toList)] ∧
    (classifySource (Source.Url "git://host/repo".toList)).2 =
      AuthedSource.Git (GitSource.fromStr "git://host/repo".toList) := by
  have h := c7_git_scheme_classification (Source.Url "git://host/repo".toList)
    "git".toList (by decide) (by decide)
  exact ⟨h.2.1 (Or.inl rfl), h.1⟩

/-- C2 / code bug: with one declared source and two declared sha256
values (neither SKIP), `check_pkg` does emit the count-mismatch
diagnostic internally but then indexes `sources[1]` out of bounds — the
Rust code panics instead of completing the scan.  With two sources and
one value (the M < N side) the scan completes, returning the
WrongNumberOfChecksums finding with exactly sources=2, sums=1. -/
theorem c2_checksum_count_mismatch :
    (check_pkg [Source.Url "https://example.com/a.tar.gz".toList]
      (fun v => if v = "sha256sums".toList then ["aa".toList, "bb".toList] else []) =
      Except.error (CheckError.indexOutOfBounds 1 1)) ∧
    (check_pkg
      [Source.Url "https://example.com/a.tar.gz".toList,
       Source.Url "https://example.com/b.tar.gz".toList]
      (fun v => if v = "sha256sums".toList then ["aa".toList] else []) =
      Except.ok
        [Finding.WrongNumberOfChecksums 2 "sha256sums".toList 1,
         Finding.UrlArtifactInsecurePin
           { url := "https://example.com/b.tar.gz".toList, filename := none,
             checksums := [] }]) := by
  constructor
  · rfl
  · rfl

/-- C10: checksum values are never validated for format.  Any value
other than the SKIP sentinel — hex or not, any length — constructs
successfully under every supported algorithm, and declared under
sha256sums and attached to a Url source it makes that source count as
securely pinned: the scan of such a recipe returns zero findings. -/
theorem c10_values_not_validated (value : Str) (hv : ¬value = "SKIP".toList) :
    (∀ alg ∈ SUPPORTED_ALGS, ∃ c, Checksum.new alg value = Except.ok c) ∧
    check_pkg [Source.Url "https://example.com/f.tar.gz".toList]
      (fun v => if v = "sha256sums".toList then [value] else []) = Except.ok [] := by
  constructor
  · intro alg halg
    exact (c5_checksum_algorithms alg value).1.mpr halg
  · have hv2 : ¬value = ['S', 'K', 'I', 'P'] := by simpa using hv
    simp [check_pkg, checksumPass, checksumPassAux, SUPPORTED_ALGS, attachSums,
      attachAt, Checksum.new, classifySources, classifySource, Source.scheme,
      Source.url, Source.filename, splitOnce, AuthedSource.url, auditSource,
      has_any_secure_git_sources, UrlSource.is_signature_file,
      Checksum.is_checksum_securely_pinned, hv2]

/-- C10 witness: a clearly non-hex value counts as a secure pin. -/
theorem c10_values_not_validated_witness :
    check_pkg [Source.Url "https://example.com/f.tar.gz".toList]
      (fun v => if v = "sha256sums".toList then ["not-hex!".toList] else []) =
      Except.ok [] :=
  (c10_values_not_validated "not-hex!".toList (by decide)).2

/-! ## Helper lemmas about the phases of check_pkg -/

/-- Evaluation of the classification step for a source with no scheme. -/
theorem classifySource_none (s : Source) (hs : s.scheme = none) :
    classifySource s = ([], AuthedSource.File s.url) := by
  unfold classifySource
  rw [hs]

/-- Evaluation of the classification step for a source with a scheme. -/
theorem classifySource_some (s : Source) (sch : Str) (hs : s.scheme = some sch) :
    classifySource s =
      (if sch = "https".toList then ([], AuthedSource.url s)
       else if sch = "http".toList then ([], AuthedSource.url s)
       else if sch = "ftp".toList then ([], AuthedSource.url s)
       else if "git".toList.isPrefixOf sch then
         ((if sch = "git".toList ∨ sch = "git+http".toList ∨ sch = "git+git".toList then
             [Finding.InsecureScheme sch s]
           else if ¬sch = "git+https".toList then
             [Finding.UnknownScheme sch s]
           else []),
          AuthedSource.Git (GitSource.fromStr s.url))
       else if "svn".toList.isPrefixOf sch then
         ((if sch = "svn".toList ∨ sch = "svn+http".toList then
             [Finding.InsecureScheme sch s]
           else if ¬sch = "svn+https".toList then
             [Finding.UnknownScheme sch s]
           else []),
          AuthedSource.Svn (SvnSource.fromStr s.url))
       else if "hg".toList.isPrefixOf sch then
         ((if sch = "hg+http".toList then
             [Finding.InsecureScheme sch s]
           else if ¬sch = "hg+https".toList then
             [Finding.UnknownScheme sch s]
           else []),
          AuthedSource.Hg (HgSource.fromStr s.url))
       else if "bzr".toList.isPrefixOf sch then
         ((if sch = "bzr+http".toList then
             [Finding.InsecureScheme sch s]
           else if ¬sch = "bzr+https".toList then
             [Finding.UnknownScheme sch s]
           else []),
          AuthedSource.Bzr (BzrSource.fromStr s.url))
       else ([Finding.UnknownScheme sch s], AuthedSource.url s)) := by
  unfold classifySource
  rw [hs]

set_option maxHeartbeats 1600000 in
/-- The findings component of the classification step for a source with
a scheme, with the typed-source component projected away. -/
theorem classifySource_fst (s : Source) (sch : Str) (hs : s.scheme = some sch) :
    (classifySource s).1 =
      (if sch = "https".toList then []
       else if sch = "http".toList then []
       else if sch = "ftp".toList then []
       else if "git".toList.isPrefixOf sch then
         (if sch = "git".toList ∨ sch = "git+http".toList ∨ sch = "git+git".toList then
            [Finding.InsecureScheme sch s]
          else if ¬sch = "git+https".toList then [Finding.UnknownScheme sch s]
          else [])
       else if "svn".toList.isPrefixOf sch then
         (if sch = "svn".toList ∨ sch = "svn+http".toList then
            [Finding.InsecureScheme sch s]
          else if ¬sch = "svn+https".toList then [Finding.UnknownScheme sch s]
          else [])
       else if "hg".toList.isPrefixOf sch then
         (if sch = "hg+http".toList then
            [Finding.InsecureScheme sch s]
          else if ¬sch = "hg+https".toList then [Finding.UnknownScheme sch s]
          else [])
       else if "bzr".toList.isPrefixOf sch then
         (if sch = "bzr+http".toList then
            [Finding.InsecureScheme sch s]
          else if ¬sch = "bzr+https".toList then [Finding.UnknownScheme sch s]
          else [])
       else [Finding.UnknownScheme sch s]) := by
  rw [classifySource_some s sch hs]
  simp only [apply_ite Prod.fst]

set_option maxHeartbeats 4000000 in
/-- Every finding emitted by the classification phase for one source is
a scheme advisory (InsecureScheme or UnknownScheme). -/
theorem classifySource_findings (s : Source) (f : Finding)
    (hf : f ∈ (classifySource s).1) :
    (∃ sch src, f = Finding.InsecureScheme sch src) ∨
    (∃ sch src, f = Finding.UnknownScheme sch src) := by
  cases hs : s.scheme with
  | none =>
    rw [classifySource_none s hs] at hf
    simp at hf
  | some sch =>
    rw [classifySource_fst s sch hs] at hf
    split_ifs at hf <;>
      simp only [List.mem_singleton, List.not_mem_nil] at hf <;>
      subst hf
    all_goals first
    | exact Or.inl ⟨_, _, rfl⟩
    | exact Or.inr ⟨_, _, rfl⟩

/-- Every finding emitted by the classification phase over the whole
source list is a scheme advisory. -/
theorem classifySources_findings (sources : List Source) (f : Finding)
    (hf : f ∈ (classifySources sources).1) :
    (∃ sch src, f = Finding.InsecureScheme sch src) ∨
    (∃ sch src, f = Finding.UnknownScheme sch src) := by
  unfold classifySources at hf
  simp only [List.mem_flatten, List.mem_map] at hf
  obtain ⟨l, ⟨⟨p, ⟨⟨s, hs, rfl⟩, rfl⟩⟩, hfl⟩⟩ := hf
  exact classifySource_findings s f hfl

/-- Every finding added by the checksum cross-validation phase is a
WrongNumberOfChecksums finding. -/
theorem checksumPassAux_findings (getVar : Str → List Str) (algs : List Str) :
    ∀ (fs : List Finding) (srcs : List AuthedSource) fs2 srcs2,
      checksumPassAux getVar algs fs srcs = Except.ok (fs2, srcs2) →
      ∀ f ∈ fs2, f ∈ fs ∨ ∃ a b c, f = Finding.WrongNumberOfChecksums a b c := by
  induction algs with
  | nil =>
    intro fs srcs fs2 srcs2 h f hf
    simp only [checksumPassAux, Except.ok.injEq, Prod.mk.injEq] at h
    rw [← h.1] at hf
    exact Or.inl hf
  | cons alg algs ih =>
    intro fs srcs fs2 srcs2 h f hf
    simp only [checksumPassAux] at h
    by_cases hempty : getVar alg = []
    · rw [if_pos hempty] at h
      exact ih fs srcs fs2 srcs2 h f hf
    · rw [if_neg hempty] at h
      rcases hat : attachSums alg (getVar alg) 0 srcs with e | srcsNext
      · rw [hat] at h
        exact absurd h (by simp)
      · rw [hat] at h
        rcases ih _ _ _ _ h f hf with hin | hw
        · rcases List.mem_append.mp hin with h1 | h2
          · exact Or.inl h1
          · right
            split_ifs at h2 <;> simp only [List.mem_singleton, List.not_mem_nil] at h2
            exact ⟨_, _, _, h2⟩
        · exact Or.inr hw

/-- Decomposition of a successful `check_pkg` run into its three
finding phases. -/
theorem check_pkg_decomp (sources : List Source) (getVar : Str → List Str)
    (findings : List Finding) (authed : List AuthedSource)
    (h : check_pkg sources getVar = Except.ok findings)
    (ha : authedSources sources getVar = Except.ok authed) :
    ∃ fs2,
      checksumPassAux getVar SUPPORTED_ALGS [] (classifySources sources).2 =
        Except.ok (fs2, authed) ∧
      findings = (classifySources sources).1 ++ fs2 ++
        (authed.map (auditSource (has_any_secure_git_sources authed))).flatten := by
  unfold check_pkg at h
  unfold authedSources at ha
  rcases hcp : checksumPass getVar (classifySources sources).2 with e | ⟨fs2, a2⟩
  · rw [hcp] at h
    exact absurd h (by simp)
  · rw [hcp] at h ha
    simp only [Except.ok.injEq] at h ha
    subst ha
    unfold checksumPass at hcp
    exact ⟨fs2, hcp, h.symm⟩

/-- Unfolding of the recipe-wide secure-git test over a cons cell. -/
theorem has_any_cons (s : AuthedSource) (rest : List AuthedSource) :
    has_any_secure_git_sources (s :: rest) =
      ((match s with
        | AuthedSource.Git gs => gs.is_commit_securely_pinned
        | _ => false) || has_any_secure_git_sources rest) := rfl

/-- When some git source in the recipe is securely pinned, the audit
loop emits no GitCommitInsecurePin finding at all. -/
theorem audit_git_count_zero (srcs : List AuthedSource) (g : GitSource) :
    ((srcs.map (auditSource true)).flatten).count (Finding.GitCommitInsecurePin g) = 0 := by
  induction srcs with
  | nil => rfl
  | cons s rest ih =>
    cases s <;>
      simp [auditSource, ih, List.count_append, List.count_cons] <;>
      try split_ifs <;>
      simp [List.count_cons, ih]

/-- When no git source in the recipe is securely pinned, the audit loop
emits exactly one GitCommitInsecurePin finding per occurrence of each
git source. -/
theorem audit_git_count (srcs : List AuthedSource) (g : GitSource)
    (h : has_any_secure_git_sources srcs = false) :
    ((srcs.map (auditSource false)).flatten).count (Finding.GitCommitInsecurePin g) =
      srcs.count (AuthedSource.Git g) := by
  induction srcs with
  | nil => rfl
  | cons s rest ih =>
    rw [has_any_cons, Bool.or_eq_false_iff] at h
    have ihr := ih h.2
    cases s with
    | Git gs =>
      have hpin : gs.is_commit_securely_pinned = false := h.1
      simp [auditSource, hpin, List.count_append, List.count_cons, ihr,
        Finding.GitCommitInsecurePin.injEq, AuthedSource.Git.injEq]
    | File n => simp [auditSource, List.count_cons, ihr]
    | Url u =>
      simp [auditSource, List.count_append, List.count_cons, ihr] <;>
        split_ifs <;> simp [List.count_cons, ihr]
    | Svn sv => simp [auditSource, List.count_append, List.count_cons, ihr]
    | Hg hg =>
      simp [auditSource, List.count_append, List.count_cons, ihr]
    | Bzr bz => simp [auditSource, List.count_append, List.count_cons, ihr]

/-- The audit loop emits one UrlArtifactInsecurePin finding per
occurrence of a url source that is neither a signature file nor pinned
by any secure checksum, and none for other url sources. -/
theorem audit_url_count (b : Bool) (srcs : List AuthedSource) (u : UrlSource) :
    ((srcs.map (auditSource b)).flatten).count (Finding.UrlArtifactInsecurePin u) =
      (if u.is_signature_file = false ∧
          u.checksums.any Checksum.is_checksum_securely_pinned = false then
        srcs.count (AuthedSource.Url u)
      else 0) := by
  induction srcs with
  | nil => simp
  | cons s rest ih =>
    cases s with
    | Url us =>
      by_cases hu : us = u
      · subst hu
        by_cases h1 : us.is_signature_file <;>
          by_cases h2 : us.checksums.any Checksum.is_checksum_securely_pinned <;>
          simp [auditSource, h1, h2, List.count_append, List.count_cons, ih]
      · by_cases h1 : us.is_signature_file <;>
          by_cases h2 : us.checksums.any Checksum.is_checksum_securely_pinned <;>
          simp [auditSource, h1, h2, List.count_append, List.count_cons, ih,
            Finding.UrlArtifactInsecurePin.injEq, AuthedSource.Url.injEq, hu]
    | File n => simp [auditSource, List.count_cons, ih]
    | Git gs =>
      simp [auditSource, List.count_append, List.count_cons, ih] <;>
        split_ifs <;> simp [List.count_cons, ih]
    | Svn sv => simp [auditSource, List.count_append, List.count_cons, ih]
    | Hg hg =>
      simp [auditSource, List.count_append, List.count_cons, ih] <;>
        split_ifs <;> simp [List.count_cons, ih]
    | Bzr bz => simp [auditSource, List.count_append, List.count_cons, ih]


/-- A finding that is not a scheme advisory is never emitted by the
classification phase. -/
theorem classify_count_zero (sources : List Source) (f : Finding)
    (h1 : ∀ sch src, ¬f = Finding.InsecureScheme sch src)
    (h2 : ∀ sch src, ¬f = Finding.UnknownScheme sch src) :
    (classifySources sources).1.count f = 0 := by
  rw [List.count_eq_zero]
  intro hmem
  rcases classifySources_findings sources f hmem with ⟨sch, src, heq⟩ | ⟨sch, src, heq⟩
  · exact h1 sch src heq
  · exact h2 sch src heq

/-- A finding that is not a count mismatch is never emitted by the
checksum cross-validation phase. -/
theorem checksum_count_zero (getVar : Str → List Str) (srcs : List AuthedSource)
    (fs2 : List Finding) (authed : List AuthedSource)
    (hcp : checksumPassAux getVar SUPPORTED_ALGS [] srcs = Except.ok (fs2, authed))
    (f : Finding) (h : ∀ a b c, ¬f = Finding.WrongNumberOfChecksums a b c) :
    fs2.count f = 0 := by
  rw [List.count_eq_zero]
  intro hmem
  rcases checksumPassAux_findings getVar SUPPORTED_ALGS [] srcs fs2 authed hcp f hmem with
    hin | ⟨a, b, c, heq⟩
  · exact absurd hin (List.not_mem_nil f)
  · exact h a b c heq

/-- C3: recipe-wide git submodule exemption.  If at least one git
source of the recipe is securely pinned, the scan emits no
GitCommitInsecurePin finding at all; if none is, it emits exactly one
GitCommitInsecurePin finding per git source occurrence. -/
theorem c3_git_submodule_exemption (sources : List Source) (getVar : Str → List Str)
    (findings : List Finding) (authed : List AuthedSource)
    (h : check_pkg sources getVar = Except.ok findings)
    (ha : authedSources sources getVar = Except.ok authed) :
    (has_any_secure_git_sources authed = true →
      ∀ g : GitSource, findings.count (Finding.GitCommitInsecurePin g) = 0) ∧
    (has_any_secure_git_sources authed = false →
      ∀ g : GitSource,
        findings.count (Finding.GitCommitInsecurePin g) =
          authed.count (AuthedSource.Git g)) := by
  obtain ⟨fs2, hcp, rfl⟩ := check_pkg_decomp sources getVar findings authed h ha
  have hclass : ∀ g : GitSource,
      (classifySources sources).1.count (Finding.GitCommitInsecurePin g) = 0 :=
    fun g => classify_count_zero sources _ (by simp) (by simp)
  have hsum : ∀ g : GitSource, fs2.count (Finding.GitCommitInsecurePin g) = 0 :=
    fun g => checksum_count_zero getVar _ fs2 authed hcp _ (by simp)
  constructor
  · intro htrue g
    rw [List.count_append, List.count_append, hclass g, hsum g, htrue,
      audit_git_count_zero]
  · intro hfalse g
    rw [List.count_append, List.count_append, hclass g, hsum g, hfalse,
      audit_git_count authed g hfalse]
    omega

/-- C3 witness: one securely pinned and one unpinned git source; the
unpinned one is not flagged. -/
theorem c3_git_submodule_exemption_witness :
    check_pkg
      [Source.Url "git+https://a/r.git#commit=aaaaaaaaaaaaaaaaaaaaaaaaaaaaaaaaaaaaaaaa".toList,
       Source.Url "git+https://a/sub.git".toList] (fun _ => []) = Except.ok [] ∧
    (([] : List Finding)).count
      (Finding.GitCommitInsecurePin (GitSource.fromStr "git+https://a/sub.git".toList)) = 0 := by
  refine ⟨rfl, ?_⟩
  exact (c3_git_submodule_exemption
    [Source.Url "git+https://a/r.git#commit=aaaaaaaaaaaaaaaaaaaaaaaaaaaaaaaaaaaaaaaa".toList,
     Source.Url "git+https://a/sub.git".toList] (fun _ => []) []
    [AuthedSource.Git (GitSource.fromStr
      "git+https://a/r.git#commit=aaaaaaaaaaaaaaaaaaaaaaaaaaaaaaaaaaaaaaaa".toList),
     AuthedSource.Git (GitSource.fromStr "git+https://a/sub.git".toList)]
    rfl rfl).1 (by rfl) (GitSource.fromStr "git+https://a/sub.git".toList)

/-- C4: a url source whose filename (explicit, else the url itself)
ends in .sig, .asc or .sign is never flagged UrlArtifactInsecurePin,
whatever its checksums; any other url source is flagged exactly when
none of its attached checksums is securely pinned (once per
occurrence). -/
theorem c4_signature_file_exemption (sources : List Source) (getVar : Str → List Str)
    (findings : List Finding) (authed : List AuthedSource)
    (h : check_pkg sources getVar = Except.ok findings)
    (ha : authedSources sources getVar = Except.ok authed) :
    ∀ u : UrlSource,
      ((".sig".toList.isSuffixOf (u.filename.getD u.url) = true ∨
        ".asc".toList.isSuffixOf (u.filename.getD u.url) = true ∨
        ".sign".toList.isSuffixOf (u.filename.getD u.url) = true) →
        findings.count (Finding.UrlArtifactInsecurePin u) = 0) ∧
      (¬(".sig".toList.isSuffixOf (u.filename.getD u.url) = true ∨
         ".asc".toList.isSuffixOf (u.filename.getD u.url) = true ∨
         ".sign".toList.isSuffixOf (u.filename.getD u.url) = true) →
        findings.count (Finding.UrlArtifactInsecurePin u) =
          (if u.checksums.any Checksum.is_checksum_securely_pinned then 0
           else authed.count (AuthedSource.Url u))) := by
  obtain ⟨fs2, hcp, rfl⟩ := check_pkg_decomp sources getVar findings authed h ha
  have hsig : ∀ u : UrlSource, u.is_signature_file = true ↔
      (".sig".toList.isSuffixOf (u.filename.getD u.url) = true ∨
       ".asc".toList.isSuffixOf (u.filename.getD u.url) = true ∨
       ".sign".toList.isSuffixOf (u.filename.getD u.url) = true) := by
    intro u
    simp [UrlSource.is_signature_file]
  intro u
  have hclass : (classifySources sources).1.count (Finding.UrlArtifactInsecurePin u) = 0 :=
    classify_count_zero sources _ (by simp) (by simp)
  have hsum : fs2.count (Finding.UrlArtifactInsecurePin u) = 0 :=
    checksum_count_zero getVar _ fs2 authed hcp _ (by simp)
  constructor
  · intro hcond
    have hs : u.is_signature_file = true := (hsig u).mpr hcond
    rw [List.count_append, List.count_append, hclass, hsum, audit_url_count,
      if_neg (by simp [hs])]
  · intro hcond
    have hsigf : u.is_signature_file = false := by
      cases hb : u.is_signature_file
      · rfl
      · exact absurd ((hsig u).mp hb) hcond
    rw [List.count_append, List.count_append, hclass, hsum, audit_url_count]
    by_cases hp : u.checksums.any Checksum.is_checksum_securely_pinned
    · rw [if_neg (by simp [hp]), if_pos hp]
    · rw [if_pos ⟨hsigf, by simpa using hp⟩, if_neg hp]
      omega

/-- C4 witness: a recipe whose only source is a .sig file yields no
UrlArtifactInsecurePin finding despite having no checksums at all. -/
theorem c4_signature_file_exemption_witness :
    check_pkg [Source.Url "https://a/x.tar.gz.sig".toList] (fun _ => []) =
      Except.ok [] ∧
    (([] : List Finding)).count
      (Finding.UrlArtifactInsecurePin
        { url := "https://a/x.tar.gz.sig".toList, filename := none, checksums := [] }) = 0 := by
  refine ⟨rfl, ?_⟩
  exact (c4_signature_file_exemption [Source.Url "https://a/x.tar.gz.sig".toList]
    (fun _ => []) []
    [AuthedSource.Url
      { url := "https://a/x.tar.gz.sig".toList, filename := none, checksums := [] }]
    rfl rfl
    { url := "https://a/x.tar.gz.sig".toList, filename := none, checksums := [] }).1
    (Or.inl (by decide))

/-! ## Scheduler lemmas and the concurrency claims -/

theorem fill_sum (limit : Nat) (q p : List Target) :
    (fill limit q p).1.length + (fill limit q p).2.length = q.length + p.length := by
  induction q generalizing p with
  | nil => simp [fill]
  | cons t q ih =>
    simp only [fill]
    split
    · rw [ih]
      simp
      omega
    · simp

theorem fill_perm (limit : Nat) (q p : List Target) :
    ((fill limit q p).1 ++ (fill limit q p).2).Perm (q ++ p) := by
  induction q generalizing p with
  | nil => simp [fill]
  | cons t q ih =>
    simp only [fill]
    split
    · refine (ih (p ++ [t])).trans ?_
      have h1 : q ++ (p ++ [t]) = (q ++ p) ++ [t] := by simp
      rw [h1]
      exact (List.perm_append_singleton t (q ++ p)).trans (by simp)
    · exact List.Perm.refl _

theorem fill_pool_le (limit : Nat) (q p : List Target) (h : p.length ≤ limit) :
    (fill limit q p).2.length ≤ limit := by
  induction q generalizing p with
  | nil => simpa [fill] using h
  | cons t q ih =>
    simp only [fill]
    split
    · next hlt =>
      refine ih (p ++ [t]) ?_
      simp only [List.length_append, List.length_singleton]
      omega
    · simpa using h

theorem fill_nil (limit : Nat) (q p : List Target) (hl : 1 ≤ limit)
    (h2 : (fill limit q p).2 = []) :
    (fill limit q p).1 = [] ∧ q = [] ∧ p = [] := by
  induction q generalizing p with
  | nil =>
    simp only [fill] at h2
    exact ⟨by simp [fill], rfl, h2⟩
  | cons t q ih =>
    simp only [fill] at h2 ⊢
    split at h2
    · next hlt =>
      have habs := (ih (p ++ [t]) h2).2.2
      simp at habs
    · next hge =>
      simp only [] at h2
      subst h2
      simp at hge
      omega

theorem get_cons_eraseIdx (l : List Target) (i : Fin l.length) :
    l.Perm (l.get i :: l.eraseIdx i) := by
  induction l with
  | nil => exact absurd i.isLt (by simp)
  | cons a tl ih =>
    rcases i with ⟨iv, hlt⟩
    cases iv with
    | zero => simp
    | succ j =>
      have hj : j < tl.length := by simpa using hlt
      have h1 := ih ⟨j, hj⟩
      have h2 := (List.Perm.cons a h1).trans
        (List.Perm.swap (tl.get ⟨j, hj⟩) a (tl.eraseIdx j))
      simpa using h2

theorem runAux_ok_spec (sr : Target → Except ScanError (List Finding))
    (jf : Target → Bool) (oracle : Nat → Nat) (limit : Nat) (hl : 1 ≤ limit) :
    ∀ (n step : Nat) (queue pool : List Target) (acc : ScanLog) (peaks : List Nat)
      (res : ScanLog) (pk : List Nat),
      queue.length + pool.length = n →
      pool.length ≤ limit →
      runAux sr jf oracle limit step queue pool acc peaks = Except.ok (res, pk) →
      ((res.map Prod.fst).Perm (acc.map Prod.fst ++ queue ++ pool) ∧
       (∀ x ∈ res, x ∈ acc ∨ (jf x.1 = false ∧ x.2 = sr x.1)) ∧
       (∀ m ∈ pk, m ∈ peaks ∨ m ≤ limit)) := by
  intro n
  induction n using Nat.strong_induction_on with
  | _ n ih =>
    intro step queue pool acc peaks res pk hn hpl hrun
    unfold runAux at hrun
    split at hrun
    next queueNext poolFilled hqp =>
    split at hrun
    · next hp =>
      subst hp
      obtain ⟨hq1, hq2, hq3⟩ := fill_nil limit queue pool hl (by rw [hqp])
      cases hrun
      subst hq2
      subst hq3
      refine ⟨by simp, fun x hx => Or.inl hx, fun m hm => Or.inl hm⟩
    · next hp =>
      split at hrun
      · next hjf => exact absurd hrun (by simp)
      · next hjf =>
        have hpos : 0 < poolFilled.length := List.length_pos.mpr hp
        have hidx : oracle step % poolFilled.length < poolFilled.length :=
          Nat.mod_lt _ hpos
        have hfillsum := fill_sum limit queue pool
        rw [hqp] at hfillsum
        simp at hfillsum
        have hm : queueNext.length +
            (poolFilled.eraseIdx (oracle step % poolFilled.length)).length = n - 1 := by
          rw [List.length_eraseIdx, if_pos hidx]
          omega
        have hple : poolFilled.length ≤ limit := by
          have h := fill_pool_le limit queue pool hpl
          rw [hqp] at h
          exact h
        have hple2 :
            (poolFilled.eraseIdx (oracle step % poolFilled.length)).length ≤ limit := by
          rw [List.length_eraseIdx, if_pos hidx]
          omega
        obtain ⟨hperm, hres, hpk⟩ :=
          ih (n - 1) (by omega) (step + 1) queueNext _ _ _ res pk hm hple2 hrun
        have hqperm := fill_perm limit queue pool
        rw [hqp] at hqperm
        simp only [] at hqperm
        have hgp := get_cons_eraseIdx poolFilled ⟨oracle step % poolFilled.length, hidx⟩
        refine ⟨?_, ?_, ?_⟩
        · refine hperm.trans ?_
          have e1 : (acc ++
              [(poolFilled.get ⟨oracle step % poolFilled.length, hidx⟩,
                sr (poolFilled.get ⟨oracle step % poolFilled.length, hidx⟩))]).map Prod.fst ++
              queueNext ++ poolFilled.eraseIdx (oracle step % poolFilled.length) =
              acc.map Prod.fst ++
              ([poolFilled.get ⟨oracle step % poolFilled.length, hidx⟩] ++
                (queueNext ++ poolFilled.eraseIdx (oracle step % poolFilled.length))) := by
            simp
          rw [e1]
          have s1 := (@List.perm_middle Target
            (poolFilled.get ⟨oracle step % poolFilled.length, hidx⟩) queueNext
            (poolFilled.eraseIdx (oracle step % poolFilled.length))).symm
          have s2 := List.Perm.append_left queueNext hgp.symm
          have e2 : acc.map Prod.fst ++ queue ++ pool =
              acc.map Prod.fst ++ (queue ++ pool) := List.append_assoc _ _ _
          rw [e2]
          exact List.Perm.append_left _ ((s1.trans s2).trans hqperm)
        · intro x hx
          rcases hres x hx with hin | hgood
          · rcases List.mem_append.mp hin with h1 | h2
            · exact Or.inl h1
            · right
              simp only [List.mem_singleton] at h2
              subst h2
              simp only [Bool.not_eq_true] at hjf
              exact ⟨hjf, rfl⟩
          · exact Or.inr hgood
        · intro m hm2
          rcases hpk m hm2 with hin | hle
          · rcases List.mem_append.mp hin with h1 | h2
            · exact Or.inl h1
            · right
              simp only [List.mem_singleton] at h2
              rw [h2]
              exact hple
          · exact Or.inr hle


theorem runAux_error (sr : Target → Except ScanError (List Finding))
    (jf : Target → Bool) (oracle : Nat → Nat) (limit : Nat) :
    ∀ (n step : Nat) (queue pool : List Target) (acc : ScanLog) (peaks : List Nat)
      (e : Str),
      queue.length + pool.length = n →
      runAux sr jf oracle limit step queue pool acc peaks = Except.error e →
      ∃ t, (t ∈ queue ∨ t ∈ pool) ∧ jf t = true := by
  intro n
  induction n using Nat.strong_induction_on with
  | _ n ih =>
    intro step queue pool acc peaks e hn hrun
    unfold runAux at hrun
    split at hrun
    next queueNext poolFilled hqp =>
    split at hrun
    · next hp => exact absurd hrun (by simp)
    · next hp =>
      have hpos : 0 < poolFilled.length := List.length_pos.mpr hp
      have hidx : oracle step % poolFilled.length < poolFilled.length :=
        Nat.mod_lt _ hpos
      have hqperm := fill_perm limit queue pool
      rw [hqp] at hqperm
      simp only [] at hqperm
      split at hrun
      · next hjf =>
        refine ⟨poolFilled.get ⟨oracle step % poolFilled.length, hidx⟩, ?_, hjf⟩
        have hmem : poolFilled.get ⟨oracle step % poolFilled.length, hidx⟩ ∈
            poolFilled := List.get_mem _ _ _
        exact List.mem_append.mp
          (hqperm.mem_iff.mp (List.mem_append.mpr (Or.inr hmem)))
      · next hjf =>
        have hfillsum := fill_sum limit queue pool
        rw [hqp] at hfillsum
        simp at hfillsum
        have hm : queueNext.length +
            (poolFilled.eraseIdx (oracle step % poolFilled.length)).length = n - 1 := by
          rw [List.length_eraseIdx, if_pos hidx]
          omega
        obtain ⟨t, hmem, hjft⟩ := ih (n - 1) (by omega) (step + 1) queueNext _ _ _ e hm hrun
        refine ⟨t, ?_, hjft⟩
        have hqp2 : t ∈ queueNext ++ poolFilled := by
          rcases hmem with h1 | h2
          · exact List.mem_append.mpr (Or.inl h1)
          · exact List.mem_append.mpr
              (Or.inr (List.eraseIdx_subset _ _ h2))
        exact List.mem_append.mp (hqperm.mem_iff.mp hqp2)

theorem run_total (sr : Target → Except ScanError (List Finding))
    (jf : Target → Bool) (oracle : Nat → Nat) (limit : Nat) (targets : List Target)
    (hnf : ∀ t ∈ targets, jf t = false) :
    ∃ res pk, run sr jf oracle limit targets = Except.ok (res, pk) := by
  rcases hr : run sr jf oracle limit targets with e | ⟨res, pk⟩
  · unfold run at hr
    obtain ⟨t, hmem, hjf⟩ :=
      runAux_error sr jf oracle limit (targets.length + 0) 0 targets [] [] [] e (by simp) hr
    rcases hmem with h1 | h2
    · rw [hnf t h1] at hjf
      exact absurd hjf (by simp)
    · exact absurd h2 (List.not_mem_nil t)
  · exact ⟨res, pk, rfl⟩

theorem run_ok_spec (sr : Target → Except ScanError (List Finding))
    (jf : Target → Bool) (oracle : Nat → Nat) (limit : Nat) (hl : 1 ≤ limit)
    (targets : List Target) (res : ScanLog) (pk : List Nat)
    (hr : run sr jf oracle limit targets = Except.ok (res, pk)) :
    (res.map Prod.fst).Perm targets ∧
    (∀ x ∈ res, jf x.1 = false ∧ x.2 = sr x.1) ∧
    (∀ m ∈ pk, m ≤ limit) := by
  unfold run at hr
  obtain ⟨hperm, hres, hpk⟩ :=
    runAux_ok_spec sr jf oracle limit hl (targets.length + 0) 0 targets [] [] [] res pk
      (by simp) (by simp) hr
  refine ⟨by simpa using hperm, ?_, ?_⟩
  · intro x hx
    rcases hres x hx with h0 | hg
    · exact absurd h0 (List.not_mem_nil x)
    · exact hg
  · intro m hm
    rcases hpk m hm with h0 | hle
    · exact absurd h0 (List.not_mem_nil m)
    · exact hle

/-- C8: with the scheduler loop of Scan::run, per-target scan failures
are isolated: whenever every task can be joined, the run returns
success whatever the per-target scan results are, and every queued
target is reported exactly once with its own result (errors included);
a join failure on any queued target makes the whole run fail. -/
theorem c8_failure_isolation (scanResult : Target → Except ScanError (List Finding))
    (joinFails : Target → Bool) (oracle : Nat → Nat) (cfg : Option Nat) (numCpus : Nat)
    (targets : List Target) (hl : 1 ≤ effectiveConcurrency cfg numCpus) :
    ((∀ t ∈ targets, joinFails t = false) →
      ∃ res pk,
        run scanResult joinFails oracle (effectiveConcurrency cfg numCpus) targets =
          Except.ok (res, pk) ∧
        (res.map Prod.fst).Perm targets ∧
        (∀ x ∈ res, x.2 = scanResult x.1)) ∧
    ((∃ t ∈ targets, joinFails t = true) →
      ∃ e, run scanResult joinFails oracle (effectiveConcurrency cfg numCpus) targets =
        Except.error e) := by
  constructor
  · intro hnf
    obtain ⟨res, pk, hr⟩ :=
      run_total scanResult joinFails oracle (effectiveConcurrency cfg numCpus) targets hnf
    obtain ⟨hperm, hres, _⟩ :=
      run_ok_spec scanResult joinFails oracle (effectiveConcurrency cfg numCpus) hl
        targets res pk hr
    exact ⟨res, pk, hr, hperm, fun x hx => (hres x hx).2⟩
  · rintro ⟨t, ht, hjf⟩
    rcases hr : run scanResult joinFails oracle (effectiveConcurrency cfg numCpus) targets
      with e | ⟨res, pk⟩
    · exact ⟨e, rfl⟩
    · exfalso
      obtain ⟨hperm, hres, _⟩ :=
        run_ok_spec scanResult joinFails oracle (effectiveConcurrency cfg numCpus) hl
          targets res pk hr
      have hmem : t ∈ res.map Prod.fst := hperm.mem_iff.mpr ht
      obtain ⟨x, hx, hxt⟩ := List.mem_map.mp hmem
      have hxf := (hres x hx).1
      rw [hxt] at hxf
      rw [hxf] at hjf
      exact absurd hjf (by simp)

/-- C8 witness: a target whose scan fails with a missing-recipe error
is reported and the run still succeeds. -/
theorem c8_failure_isolation_witness :
    ∃ res pk,
      run (fun _ => Except.error (ScanError.missingPkgbuild "/a/PKGBUILD".toList))
        (fun _ => false) (fun _ => 0) (effectiveConcurrency none 1)
        [Target.BuildPath "/a".toList] = Except.ok (res, pk) ∧
      (res.map Prod.fst).Perm [Target.BuildPath "/a".toList] ∧
      (∀ x ∈ res,
        x.2 = Except.error (ScanError.missingPkgbuild "/a/PKGBUILD".toList)) :=
  (c8_failure_isolation
    (fun _ => Except.error (ScanError.missingPkgbuild "/a/PKGBUILD".toList))
    (fun _ => false) (fun _ => 0) none 1 [Target.BuildPath "/a".toList]
    (by decide)).1 (by simp)

/-- C9 counterexample: with a configured concurrency limit of 0 the
driver terminates at once with an empty report log, so the single
queued target is never scanned and never reports a result. -/
theorem c9_counterexample :
    run (fun _ => Except.ok []) (fun _ => false) (fun _ => 0)
      (effectiveConcurrency (some 0) 4) [Target.BuildPath "/pkg".toList] =
      Except.ok ([], []) ∧
    ¬(([] : ScanLog).map Prod.fst).Perm [Target.BuildPath "/pkg".toList] := by
  constructor
  · simp [run, runAux, fill, effectiveConcurrency]
  · intro h
    simpa using h.length_eq

/-- C9 (amended): for every positive effective concurrency limit (any
explicit positive -j value, and the default of twice the available
parallelism whenever at least one cpu is available), the pool size at
every await never exceeds the limit, and — provided every task joins —
every queued target is scanned and reports exactly one result before
the driver terminates. -/
theorem c9_bounded_concurrency (scanResult : Target → Except ScanError (List Finding))
    (joinFails : Target → Bool) (oracle : Nat → Nat) (cfg : Option Nat) (numCpus : Nat)
    (targets : List Target) (hl : 1 ≤ effectiveConcurrency cfg numCpus)
    (hnf : ∀ t ∈ targets, joinFails t = false) :
    ∃ res pk,
      run scanResult joinFails oracle (effectiveConcurrency cfg numCpus) targets =
        Except.ok (res, pk) ∧
      (∀ m ∈ pk, m ≤ effectiveConcurrency cfg numCpus) ∧
      (res.map Prod.fst).Perm targets ∧
      (∀ x ∈ res, x.2 = scanResult x.1) := by
  obtain ⟨res, pk, hr⟩ :=
    run_total scanResult joinFails oracle (effectiveConcurrency cfg numCpus) targets hnf
  obtain ⟨hperm, hres, hpk⟩ :=
    run_ok_spec scanResult joinFails oracle (effectiveConcurrency cfg numCpus) hl
      targets res pk hr
  exact ⟨res, pk, hr, hpk, hperm, fun x hx => (hres x hx).2⟩

/-- C9 witness: three targets under the default limit with one cpu. -/
theorem c9_bounded_concurrency_witness :
    ∃ res pk,
      run (fun _ => Except.ok []) (fun _ => false) (fun _ => 1)
        (effectiveConcurrency none 1)
        [Target.BuildPath "/a".toList, Target.BuildPath "/b".toList,
         Target.BuildPath "/c".toList] = Except.ok (res, pk) ∧
      (∀ m ∈ pk, m ≤ effectiveConcurrency none 1) ∧
      (res.map Prod.fst).Perm
        [Target.BuildPath "/a".toList, Target.BuildPath "/b".toList,
         Target.BuildPath "/c".toList] ∧
      (∀ x ∈ res, x.2 = Except.ok []) :=
  c9_bounded_concurrency (fun _ => Except.ok []) (fun _ => false) (fun _ => 1)
    none 1
    [Target.BuildPath "/a".toList, Target.BuildPath "/b".toList,
     Target.BuildPath "/c".toList] (by decide) (by simp)


end Fsck
